import Mathlib

set_option maxRecDepth 10000

/-!
Verification of the Sudoku solving core of `main.py` (DonalMoloney/Sudoku-Solver).

The embedded functions mirror the Python source:
* `valid bo num pos`  embeds `valid(bo, num, pos)`: the row / column / 3x3-box
  duplicate check that excludes `pos` itself;
* `find_empty bo`     embeds `find_empty(bo)`: the row-major scan for the first
  cell holding 0;
* `solveFuel` / `solveDigits` embed the recursive backtracking of `Grid.solve`,
  with an explicit fuel argument bounding the recursion depth (the Python
  recursion depth is bounded by the number of empty cells; `solve` runs with
  fuel 81, which is always enough, and fuel-irrelevance is proved below);
* `Cube`, `GameState`, `place`, `update_model` embed the `Cube` / `Grid`
  classes and `Grid.place` / `Grid.update_model`.

A grid is a total function from positions to natural numbers; 0 encodes an
empty cell, mirroring the 9x9 list-of-lists of the Python code.
-/

/-- A board position: `(row, col)` with both coordinates in `[0, 9)`. -/
abbrev Pos : Type := Fin 9 × Fin 9

/-- A 9x9 grid of cell values; `0` is an empty cell, mirroring the Python
2D list `self.model` / the generated board. -/
abbrev Grid : Type := Pos → Nat

/-- Writing value `v` into cell `p` of grid `g`, embedding the Python
assignment `bo[p[0]][p[1]] = v`. -/
def setCell (g : Grid) (p : Pos) (v : Nat) : Grid :=
  fun q => if q = p then v else g q

/-- All 81 positions in row-major order, the order of the nested
`for i in range(9): for j in range(9)` loops. -/
def allCells : List Pos :=
  (List.finRange 9).flatMap fun i => (List.finRange 9).map fun j => (i, j)

/-- Embeds `find_empty(bo)`: the first position in row-major order whose cell
holds 0, or `none` when the grid is full. -/
def find_empty (bo : Grid) : Option Pos :=
  allCells.find? fun p => bo p == 0

/-- The cell of `pos`'s 3x3 box at offset `(di, dj)`; the Python box loop runs
`i in range(box_y*3, box_y*3+3)`, `j in range(box_x*3, box_x*3+3)` with
`box_y = pos[0] // 3`, `box_x = pos[1] // 3`. -/
def boxCell (pos : Pos) (di dj : Fin 3) : Pos :=
  (⟨(pos.1 : Nat) / 3 * 3 + (di : Nat), by
      have h1 := pos.1.isLt; have h2 := di.isLt; omega⟩,
   ⟨(pos.2 : Nat) / 3 * 3 + (dj : Nat), by
      have h1 := pos.2.isLt; have h2 := dj.isLt; omega⟩)

/-- Embeds `valid(bo, num, pos)`: `false` exactly when `num` already occurs in
`pos`'s row at another column, in `pos`'s column at another row, or in `pos`'s
3x3 box at another cell.  Each conjunct is one of the three Python loops,
each of which returns `False` on a hit, with the position itself excluded. -/
def valid (bo : Grid) (num : Nat) (pos : Pos) : Bool :=
  ((List.finRange 9).all fun i => !(bo (pos.1, i) == num && !(pos.2 == i))) &&
  ((List.finRange 9).all fun i => !(bo (i, pos.2) == num && !(pos.1 == i))) &&
  ((List.finRange 3).all fun di => (List.finRange 3).all fun dj =>
    !(bo (boxCell pos di dj) == num && !(boxCell pos di dj == pos)))

/-- The candidate digits `1..9`, the Python iteration `for i in range(1, 10)`. -/
def digits : List Nat := [1, 2, 3, 4, 5, 6, 7, 8, 9]

/-- The digit loop of `Grid.solve` at empty cell `p`: try each remaining
candidate in order; on a valid candidate write it and run the recursive solve
`rec`; propagate success, and on failure reset the cell to 0 and continue.
The grid is threaded explicitly, mirroring the mutation of `self.model`. -/
def solveDigits (rec : Grid → Bool × Grid) (p : Pos) :
    Grid → List Nat → Bool × Grid
  | bo, [] => (false, bo)
  | bo, i :: rest =>
    if valid bo i p then
      if (rec (setCell bo p i)).1 then (true, (rec (setCell bo p i)).2)
      else solveDigits rec p (setCell (rec (setCell bo p i)).2 p 0) rest
    else
      solveDigits rec p bo rest

/-- Embeds the recursion of `Grid.solve` with explicit fuel: find the first
empty cell; if none, report solved with the grid unchanged; otherwise run the
digit loop, recursing with one unit of fuel less.  The fuel only bounds the
recursion depth; `solveFuel_eq_solve` below shows any fuel at least the number
of empty cells gives the same result, so `solve` is the Python function. -/
def solveFuel : Nat → Grid → Bool × Grid
  | fuel, bo =>
    match find_empty bo with
    | none => (true, bo)
    | some p =>
      match fuel with
      | 0 => (false, bo)
      | f + 1 => solveDigits (solveFuel f) p bo digits

/-- The number of empty cells of a grid: the measure on which the recursion of
`Grid.solve` is well-founded. -/
def countEmpty (g : Grid) : Nat :=
  (allCells.filter fun p => g p == 0).length

/-- Embeds `Grid.solve`: the backtracking search on the solver's grid
(`self.model`), returning the success flag and the final grid.  Fuel 81 always
suffices since a 9x9 grid has at most 81 empty cells. -/
def solve (bo : Grid) : Bool × Grid :=
  solveFuel 81 bo

/-- Embeds the `Cube` class: the committed `value` and the scratch `temp`
mark (geometry and selection flags are presentation state and carry no
solving semantics). -/
structure Cube where
  value : Nat
  temp : Nat
  deriving DecidableEq

/-- The 9x9 field of cubes, embedding `self.cubes`. -/
abbrev Cubes : Type := Pos → Cube

/-- Embeds `Cube.set`: overwrite the committed value of the cube at `p`. -/
def cubeSet (cs : Cubes) (p : Pos) (v : Nat) : Cubes :=
  fun q => if q = p then { cs q with value := v } else cs q

/-- Embeds `Cube.set_temp`: overwrite the scratch value of the cube at `p`. -/
def cubeSetTemp (cs : Cubes) (p : Pos) (v : Nat) : Cubes :=
  fun q => if q = p then { cs q with temp := v } else cs q

/-- Embeds `Grid.update_model`: rebuild the solver grid from the cube values. -/
def update_model (cs : Cubes) : Grid :=
  fun p => (cs p).value

/-- Embeds the mutable state of the `Grid` class that `place` touches: the
display cubes, the solver model, and the selected position. -/
structure GameState where
  cubes : Cubes
  model : Grid
  selected : Pos

/-- Embeds `Grid.place(val)`.  Python returns `True` (committed), `False`
(rejected), or falls through returning `None` when the selected cube is
already filled; the result is `(some true | some false | none, final state)`.
On a filled cell nothing happens.  Otherwise the value is written, the model
rebuilt, and `valid` plus a full speculative `solve` decide: on success the
state keeps the written cube and the solver's final model; on failure the
cube's value and temp are reset to 0 and the model rebuilt. -/
def place (st : GameState) (val : Nat) : Option Bool × GameState :=
  let row := st.selected.1
  let col := st.selected.2
  if (st.cubes (row, col)).value = 0 then
    let cubes1 := cubeSet st.cubes (row, col) val
    let model1 := update_model cubes1
    if valid model1 val (row, col) then
      match solve model1 with
      | (true, m2) => (some true, { st with cubes := cubes1, model := m2 })
      | (false, _) =>
        let cubes2 := cubeSetTemp (cubeSet cubes1 (row, col) 0) (row, col) 0
        (some false, { st with cubes := cubes2, model := update_model cubes2 })
    else
      let cubes2 := cubeSetTemp (cubeSet cubes1 (row, col) 0) (row, col) 0
      (some false, { st with cubes := cubes2, model := update_model cubes2 })
  else
    (none, st)

/-- Embeds `Grid.is_finished`: no cube value is 0. -/
def is_finished (cs : Cubes) : Bool :=
  allCells.all fun p => !((cs p).value == 0)

/-! ### Specification-side predicates

These state the Sudoku constraints in mathematical language; the claims relate
the embedded code to them. -/

/-- Two distinct-or-not positions share a Sudoku unit: same row, same column,
or same 3x3 box. -/
def sameUnit (p q : Pos) : Prop :=
  p.1 = q.1 ∨ p.2 = q.2 ∨
    ((p.1 : Nat) / 3 = (q.1 : Nat) / 3 ∧ (p.2 : Nat) / 3 = (q.2 : Nat) / 3)

instance (p q : Pos) : Decidable (sameUnit p q) := by
  unfold sameUnit; infer_instance

/-- `s` agrees with `bo` on every filled (nonzero) cell of `bo`. -/
def extendsGrid (s bo : Grid) : Prop :=
  ∀ p : Pos, bo p ≠ 0 → s p = bo p

/-- Every cell of `g` holds a digit of `1..9`. -/
def inRange (g : Grid) : Prop :=
  ∀ p : Pos, 1 ≤ g p ∧ g p ≤ 9

/-- No two distinct cells of a shared unit hold the same nonzero value. -/
def conflictFree (g : Grid) : Prop :=
  ∀ p q : Pos, p ≠ q → sameUnit p q → g p ≠ 0 → g p ≠ g q

/-- `s` is a completion of `bo` satisfying the Sudoku constraints: it keeps
every given of `bo`, fills every cell with a digit of `1..9`, and has no
duplicate in any row, column or box. -/
def isSolutionOf (s bo : Grid) : Prop :=
  extendsGrid s bo ∧ inRange s ∧ conflictFree s

instance (s bo : Grid) : Decidable (extendsGrid s bo) := by
  unfold extendsGrid; infer_instance

instance (g : Grid) : Decidable (inRange g) := by
  unfold inRange; infer_instance

instance (g : Grid) : Decidable (conflictFree g) := by
  unfold conflictFree; infer_instance

instance (s bo : Grid) : Decidable (isSolutionOf s bo) := by
  unfold isSolutionOf; infer_instance

/-- Build a grid from a list of rows (0 outside the given entries), used for
concrete test grids. -/
def ofRows (l : List (List Nat)) : Grid :=
  fun p => (l.getD (p.1 : Nat) []).getD (p.2 : Nat) 0

/-- A complete valid Sudoku solution used as concrete test data. -/
def Sgrid : Grid := ofRows
  [[1, 2, 3, 4, 5, 6, 7, 8, 9],
   [4, 5, 6, 7, 8, 9, 1, 2, 3],
   [7, 8, 9, 1, 2, 3, 4, 5, 6],
   [2, 3, 4, 5, 6, 7, 8, 9, 1],
   [5, 6, 7, 8, 9, 1, 2, 3, 4],
   [8, 9, 1, 2, 3, 4, 5, 6, 7],
   [3, 4, 5, 6, 7, 8, 9, 1, 2],
   [6, 7, 8, 9, 1, 2, 3, 4, 5],
   [9, 1, 2, 3, 4, 5, 6, 7, 8]]

/-- `Sgrid` with the givens `(0,0)` and `(0,1)` both holding 2 (a row
conflict among givens) and cell `(8,8)` empty.  The engine still completes
it, since `valid` never re-checks given cells against each other. -/
def conflictSolvableGrid : Grid := ofRows
  [[2, 2, 3, 4, 5, 6, 7, 8, 9],
   [4, 5, 6, 7, 8, 9, 1, 2, 3],
   [7, 8, 9, 1, 2, 3, 4, 5, 6],
   [2, 3, 4, 5, 6, 7, 8, 9, 1],
   [5, 6, 7, 8, 9, 1, 2, 3, 4],
   [8, 9, 1, 2, 3, 4, 5, 6, 7],
   [3, 4, 5, 6, 7, 8, 9, 1, 2],
   [6, 7, 8, 9, 1, 2, 3, 4, 5],
   [9, 1, 2, 3, 4, 5, 6, 7, 0]]

/-- `Sgrid` with the given `(8,7)` changed to 8 (conflicting with the given
8 at `(0,7)` in column 7) and cell `(8,8)` empty: every candidate digit for
`(8,8)` is rejected, so the search exhausts. -/
def conflictBlockedGrid : Grid := ofRows
  [[1, 2, 3, 4, 5, 6, 7, 8, 9],
   [4, 5, 6, 7, 8, 9, 1, 2, 3],
   [7, 8, 9, 1, 2, 3, 4, 5, 6],
   [2, 3, 4, 5, 6, 7, 8, 9, 1],
   [5, 6, 7, 8, 9, 1, 2, 3, 4],
   [8, 9, 1, 2, 3, 4, 5, 6, 7],
   [3, 4, 5, 6, 7, 8, 9, 1, 2],
   [6, 7, 8, 9, 1, 2, 3, 4, 5],
   [9, 1, 2, 3, 4, 5, 6, 8, 0]]

/-- `Sgrid` with cell `(8,8)` emptied: a puzzle whose unique Sudoku solution
is `Sgrid`. -/
def uniqueTestGrid : Grid := ofRows
  [[1, 2, 3, 4, 5, 6, 7, 8, 9],
   [4, 5, 6, 7, 8, 9, 1, 2, 3],
   [7, 8, 9, 1, 2, 3, 4, 5, 6],
   [2, 3, 4, 5, 6, 7, 8, 9, 1],
   [5, 6, 7, 8, 9, 1, 2, 3, 4],
   [8, 9, 1, 2, 3, 4, 5, 6, 7],
   [3, 4, 5, 6, 7, 8, 9, 1, 2],
   [6, 7, 8, 9, 1, 2, 3, 4, 5],
   [9, 1, 2, 3, 4, 5, 6, 7, 0]]

/-! ### Concrete game states for the placement tests -/

/-- Cubes holding `Sgrid` with cell `(8,8)` empty and carrying scratch mark 7. -/
def exCubes : Cubes := fun p =>
  { value := if p = (8, 8) then 0 else Sgrid p,
    temp := if p = (8, 8) then 7 else 0 }

/-- Game state with `exCubes` and cell `(8,8)` selected. -/
def exSt : GameState :=
  { cubes := exCubes, model := update_model exCubes, selected := (8, 8) }

/-- A fully solved board state with cell `(0,0)` selected. -/
def exStFull : GameState :=
  { cubes := fun p => { value := Sgrid p, temp := 0 },
    model := Sgrid, selected := (0, 0) }

/-! ### Basic lemmas about cells, scanning and counting -/

theorem setCell_self (g : Grid) (p : Pos) (v : Nat) : setCell g p v p = v := by
  simp [setCell]

theorem setCell_ne (g : Grid) (p q : Pos) (v : Nat) (h : q ≠ p) :
    setCell g p v q = g q := by
  simp [setCell, h]

theorem setCell_setCell (g : Grid) (p : Pos) (v w : Nat) :
    setCell (setCell g p v) p w = setCell g p w := by
  funext q
  by_cases h : q = p <;> simp [setCell, h]

theorem setCell_eq_self (g : Grid) (p : Pos) (v : Nat) (h : g p = v) :
    setCell g p v = g := by
  funext q
  by_cases hq : q = p <;> simp [setCell, hq, h.symm]

theorem mem_allCells (p : Pos) : p ∈ allCells := by
  unfold allCells
  simp only [List.mem_flatMap, List.mem_map, List.mem_finRange]
  exact ⟨p.1, trivial, p.2, trivial, rfl⟩

theorem allCells_nodup : allCells.Nodup := by decide

theorem allCells_length : allCells.length = 81 := by decide

theorem find_empty_eq_none_iff (bo : Grid) :
    find_empty bo = none ↔ ∀ p : Pos, bo p ≠ 0 := by
  unfold find_empty
  rw [List.find?_eq_none]
  constructor
  · intro h p
    have := h p (mem_allCells p)
    simpa using this
  · intro h p _
    simpa using h p

theorem find_empty_some (bo : Grid) (p : Pos) (h : find_empty bo = some p) :
    bo p = 0 := by
  have := List.find?_some h
  simpa using this

theorem filter_length_update (f f' : Pos → Bool) (p : Pos)
    (hfp : f p = true) (hfp' : f' p = false)
    (hagree : ∀ q, q ≠ p → f' q = f q) :
    ∀ l : List Pos, l.Nodup → p ∈ l →
      (l.filter f').length + 1 = (l.filter f).length := by
  intro l
  induction l with
  | nil => intro _ h; cases h
  | cons a t ih =>
    intro hnd hmem
    rcases List.nodup_cons.mp hnd with ⟨hat, hndt⟩
    by_cases hap : a = p
    · subst hap
      have ht' : t.filter f' = t.filter f := by
        apply List.filter_congr
        intro q hq
        exact hagree q (fun h => hat (h ▸ hq))
      simp [List.filter_cons, hfp, hfp', ht']
    · have hfa : f' a = f a := hagree a hap
      have hmem' : p ∈ t := by
        rcases List.mem_cons.mp hmem with h | h
        · exact absurd h.symm hap
        · exact h
      have hlen := ih hndt hmem'
      by_cases hfa2 : f a = true
      · simp only [List.filter_cons, hfa, hfa2, if_true, List.length_cons]
        omega
      · simp only [List.filter_cons, hfa, hfa2, if_false, Bool.false_eq_true]
        exact hlen

theorem countEmpty_setCell (g : Grid) (p : Pos) (v : Nat)
    (hp : g p = 0) (hv : v ≠ 0) :
    countEmpty (setCell g p v) + 1 = countEmpty g := by
  unfold countEmpty
  exact filter_length_update (fun q => g q == 0) (fun q => setCell g p v q == 0) p
    (by simp [hp]) (by simp [setCell_self, hv])
    (fun q hq => by simp [setCell_ne g p q v hq])
    allCells allCells_nodup (mem_allCells p)

theorem countEmpty_pos (bo : Grid) (p : Pos) (h : find_empty bo = some p) :
    1 ≤ countEmpty bo := by
  have hp : bo p = 0 := find_empty_some bo p h
  have hmem : p ∈ allCells.filter fun q => bo q == 0 := by
    rw [List.mem_filter]
    exact ⟨mem_allCells p, by simp [hp]⟩
  have := List.length_pos.mpr (List.ne_nil_of_mem hmem)
  unfold countEmpty
  omega

theorem countEmpty_le (bo : Grid) : countEmpty bo ≤ 81 := by
  unfold countEmpty
  have h := List.length_filter_le (fun q => bo q == 0) allCells
  rw [allCells_length] at h
  exact h

/-! ### Characterization of `valid` -/

theorem bool_guard_iff (a b : Bool) : (!(a && !b)) = true ↔ (a = true → b = true) := by
  revert a b; decide

theorem sameUnit_symm (p q : Pos) (h : sameUnit p q) : sameUnit q p := by
  rcases h with h | h | ⟨h1, h2⟩
  · exact Or.inl h.symm
  · exact Or.inr (Or.inl h.symm)
  · exact Or.inr (Or.inr ⟨h1.symm, h2.symm⟩)

theorem boxCell_sameUnit (pos : Pos) (di dj : Fin 3) :
    sameUnit pos (boxCell pos di dj) := by
  refine Or.inr (Or.inr ⟨?_, ?_⟩)
  · show (pos.1 : Nat) / 3 = ((pos.1 : Nat) / 3 * 3 + (di : Nat)) / 3
    have h2 := di.isLt
    omega
  · show (pos.2 : Nat) / 3 = ((pos.2 : Nat) / 3 * 3 + (dj : Nat)) / 3
    have h2 := dj.isLt
    omega

theorem valid_eq_true_iff (bo : Grid) (num : Nat) (pos : Pos) :
    valid bo num pos = true ↔
      ∀ q : Pos, q ≠ pos → sameUnit pos q → bo q ≠ num := by
  unfold valid
  rw [Bool.and_eq_true, Bool.and_eq_true]
  rw [List.all_eq_true, List.all_eq_true, List.all_eq_true]
  constructor
  · rintro ⟨⟨hrow, hcol⟩, hbox⟩ q hqne hunit heq
    rcases hunit with h | h | ⟨h1, h2⟩
    · -- same row
      have hne2 : pos.2 ≠ q.2 := by
        intro hc
        exact hqne (Prod.ext h.symm hc.symm)
      have himp := (bool_guard_iff _ _).mp (hrow q.2 (List.mem_finRange _))
      have hq : bo (pos.1, q.2) = num := by
        rw [show (pos.1, q.2) = q from Prod.ext h (by rfl)]
        exact heq
      have := himp (by simpa using hq)
      exact hne2 (by simpa using this)
    · -- same column
      have hne1 : pos.1 ≠ q.1 := by
        intro hc
        exact hqne (Prod.ext hc.symm h.symm)
      have himp := (bool_guard_iff _ _).mp (hcol q.1 (List.mem_finRange _))
      have hq : bo (q.1, pos.2) = num := by
        rw [show (q.1, pos.2) = q from Prod.ext (by rfl) h]
        exact heq
      have := himp (by simpa using hq)
      exact hne1 (by simpa using this)
    · -- same box
      have hd1 := pos.1.isLt
      have hd2 := pos.2.isLt
      have hq1 := q.1.isLt
      have hq2 := q.2.isLt
      set di : Fin 3 := ⟨(q.1 : Nat) % 3, by omega⟩ with hdi
      set dj : Fin 3 := ⟨(q.2 : Nat) % 3, by omega⟩ with hdj
      have hbc : boxCell pos di dj = q := by
        refine Prod.ext (Fin.ext ?_) (Fin.ext ?_)
        · show (pos.1 : Nat) / 3 * 3 + (q.1 : Nat) % 3 = (q.1 : Nat)
          omega
        · show (pos.2 : Nat) / 3 * 3 + (q.2 : Nat) % 3 = (q.2 : Nat)
          omega
      have hbox2 := List.all_eq_true.mp (hbox di (List.mem_finRange _))
      have hb := (bool_guard_iff _ _).mp (hbox2 dj (List.mem_finRange _))
      rw [hbc] at hb
      have := hb (by simpa using heq)
      exact hqne (by simpa using this)
  · intro h
    refine ⟨⟨?_, ?_⟩, ?_⟩
    · intro i _
      rw [bool_guard_iff]
      intro hnum
      by_contra hne
      have hiq : (pos.1, i) ≠ pos := by
        intro hc
        apply hne
        have hi : i = pos.2 := congrArg Prod.snd hc
        simp [hi]
      exact h (pos.1, i) hiq (Or.inl rfl) (by simpa using hnum)
    · intro i _
      rw [bool_guard_iff]
      intro hnum
      by_contra hne
      have hiq : (i, pos.2) ≠ pos := by
        intro hc
        apply hne
        have hi : i = pos.1 := congrArg Prod.fst hc
        simp [hi]
      exact h (i, pos.2) hiq (Or.inr (Or.inl rfl)) (by simpa using hnum)
    · intro di _
      rw [List.all_eq_true]
      intro dj _
      rw [bool_guard_iff]
      intro hnum
      by_contra hne
      have hbcne : boxCell pos di dj ≠ pos := by
        intro hc
        apply hne
        simp [hc]
      exact h (boxCell pos di dj) hbcne (boxCell_sameUnit pos di dj)
        (by simpa using hnum)

theorem valid_eq_false_iff (bo : Grid) (num : Nat) (pos : Pos) :
    valid bo num pos = false ↔
      ∃ q : Pos, q ≠ pos ∧ sameUnit pos q ∧ bo q = num := by
  have h := valid_eq_true_iff bo num pos
  constructor
  · intro hf
    by_contra hex
    push_neg at hex
    have ht : valid bo num pos = true := h.mpr hex
    rw [ht] at hf
    exact Bool.noConfusion hf
  · rintro ⟨q, hne, hu, heq⟩
    cases hval : valid bo num pos with
    | false => rfl
    | true => exact absurd heq (h.mp hval q hne hu)

/-! ### Unfolding equations for the solver -/

theorem solveDigits_nil (rec : Grid → Bool × Grid) (p : Pos) (bo : Grid) :
    solveDigits rec p bo [] = (false, bo) := rfl

theorem solveDigits_cons (rec : Grid → Bool × Grid) (p : Pos) (bo : Grid)
    (i : Nat) (rest : List Nat) :
    solveDigits rec p bo (i :: rest) =
      if valid bo i p then
        if (rec (setCell bo p i)).1 then (true, (rec (setCell bo p i)).2)
        else solveDigits rec p (setCell (rec (setCell bo p i)).2 p 0) rest
      else
        solveDigits rec p bo rest := rfl

theorem solveFuel_none (fuel : Nat) (bo : Grid) (h : find_empty bo = none) :
    solveFuel fuel bo = (true, bo) := by
  rw [solveFuel, h]

theorem solveFuel_zero (bo : Grid) (p : Pos) (h : find_empty bo = some p) :
    solveFuel 0 bo = (false, bo) := by
  rw [solveFuel, h]

theorem solveFuel_succ (f : Nat) (bo : Grid) (p : Pos)
    (h : find_empty bo = some p) :
    solveFuel (f + 1) bo = solveDigits (solveFuel f) p bo digits := by
  rw [solveFuel, h]

/-! ### Restoration: a failing search leaves the grid exactly as it found it -/

theorem solveDigits_restore (rec : Grid → Bool × Grid)
    (hrec : ∀ g, (rec g).1 = false → (rec g).2 = g) (p : Pos) :
    ∀ (l : List Nat) (bo : Grid), bo p = 0 →
      (solveDigits rec p bo l).1 = false → (solveDigits rec p bo l).2 = bo := by
  intro l
  induction l with
  | nil => intro bo _ _; rfl
  | cons i rest ih =>
    intro bo hbo hfail
    rw [solveDigits_cons] at hfail ⊢
    by_cases hv : valid bo i p = true
    · rw [if_pos hv] at hfail ⊢
      by_cases hok : (rec (setCell bo p i)).1 = true
      · rw [if_pos hok] at hfail
        exact Bool.noConfusion hfail
      · rw [Bool.not_eq_true] at hok
        rw [if_neg (by simp [hok])] at hfail ⊢
        have hbo2 : (rec (setCell bo p i)).2 = setCell bo p i :=
          hrec (setCell bo p i) hok
        have hreset : setCell (rec (setCell bo p i)).2 p 0 = bo := by
          rw [hbo2, setCell_setCell]
          exact setCell_eq_self bo p 0 hbo
        rw [hreset] at hfail ⊢
        exact ih bo hbo hfail
    · rw [if_neg hv] at hfail ⊢
      exact ih bo hbo hfail

theorem solveFuel_restore (fuel : Nat) :
    ∀ bo : Grid, (solveFuel fuel bo).1 = false → (solveFuel fuel bo).2 = bo := by
  induction fuel with
  | zero =>
    intro bo hfail
    cases hfe : find_empty bo with
    | none => rw [solveFuel_none 0 bo hfe]
    | some p => rw [solveFuel_zero bo p hfe]
  | succ f ih =>
    intro bo hfail
    cases hfe : find_empty bo with
    | none =>
      rw [solveFuel_none (f + 1) bo hfe] at hfail
      exact Bool.noConfusion hfail
    | some p =>
      rw [solveFuel_succ f bo p hfe] at hfail ⊢
      exact solveDigits_restore (solveFuel f) ih p digits bo
        (find_empty_some bo p hfe) hfail

/-- The restoration property for `Grid.solve` itself: a failing call leaves
the grid untouched. -/
theorem solve_restore (bo : Grid) (h : (solve bo).1 = false) :
    (solve bo).2 = bo :=
  solveFuel_restore 81 bo h

/-! ### Frame: the search never changes a filled cell -/

theorem solveDigits_frame (rec : Grid → Bool × Grid)
    (hrecR : ∀ g, (rec g).1 = false → (rec g).2 = g)
    (hrecF : ∀ g q, g q ≠ 0 → (rec g).2 q = g q) (p : Pos) :
    ∀ (l : List Nat) (bo : Grid), bo p = 0 →
      ∀ q : Pos, bo q ≠ 0 → (solveDigits rec p bo l).2 q = bo q := by
  intro l
  induction l with
  | nil => intro bo _ q _; rfl
  | cons i rest ih =>
    intro bo hbo q hq
    rw [solveDigits_cons]
    by_cases hv : valid bo i p = true
    · rw [if_pos hv]
      have hqp : q ≠ p := fun hc => hq (hc ▸ hbo)
      have hset : setCell bo p i q = bo q := setCell_ne bo p q i hqp
      by_cases hok : (rec (setCell bo p i)).1 = true
      · rw [if_pos hok]
        have := hrecF (setCell bo p i) q (by rw [hset]; exact hq)
        rw [this, hset]
      · rw [Bool.not_eq_true] at hok
        rw [if_neg (by simp [hok])]
        have hbo2 : (rec (setCell bo p i)).2 = setCell bo p i :=
          hrecR (setCell bo p i) hok
        have hreset : setCell (rec (setCell bo p i)).2 p 0 = bo := by
          rw [hbo2, setCell_setCell]
          exact setCell_eq_self bo p 0 hbo
        rw [hreset]
        exact ih bo hbo q hq
    · rw [if_neg hv]
      exact ih bo hbo q hq

theorem solveFuel_frame (fuel : Nat) :
    ∀ (bo : Grid) (q : Pos), bo q ≠ 0 → (solveFuel fuel bo).2 q = bo q := by
  induction fuel with
  | zero =>
    intro bo q _
    cases hfe : find_empty bo with
    | none => rw [solveFuel_none 0 bo hfe]
    | some p => rw [solveFuel_zero bo p hfe]
  | succ f ih =>
    intro bo q hq
    cases hfe : find_empty bo with
    | none => rw [solveFuel_none (f + 1) bo hfe]
    | some p =>
      rw [solveFuel_succ f bo p hfe]
      exact solveDigits_frame (solveFuel f) (solveFuel_restore f) ih p digits bo
        (find_empty_some bo p hfe) q hq

/-! ### A successful search fills every cell -/

theorem solveDigits_complete_of_true (rec : Grid → Bool × Grid)
    (hrec : ∀ g, (rec g).1 = true → find_empty (rec g).2 = none) (p : Pos) :
    ∀ (l : List Nat) (bo : Grid),
      (solveDigits rec p bo l).1 = true →
      find_empty (solveDigits rec p bo l).2 = none := by
  intro l
  induction l with
  | nil => intro bo h; exact Bool.noConfusion h
  | cons i rest ih =>
    intro bo h
    rw [solveDigits_cons] at h ⊢
    by_cases hv : valid bo i p = true
    · rw [if_pos hv] at h ⊢
      by_cases hok : (rec (setCell bo p i)).1 = true
      · rw [if_pos hok] at h ⊢
        exact hrec (setCell bo p i) hok
      · rw [if_neg hok] at h ⊢
        exact ih _ h
    · rw [if_neg hv] at h ⊢
      exact ih bo h

theorem solveFuel_complete_of_true (fuel : Nat) :
    ∀ bo : Grid, (solveFuel fuel bo).1 = true →
      find_empty (solveFuel fuel bo).2 = none := by
  induction fuel with
  | zero =>
    intro bo h
    cases hfe : find_empty bo with
    | none => rw [solveFuel_none 0 bo hfe]; exact hfe
    | some p =>
      rw [solveFuel_zero bo p hfe] at h
      exact Bool.noConfusion h
  | succ f ih =>
    intro bo h
    cases hfe : find_empty bo with
    | none => rw [solveFuel_none (f + 1) bo hfe]; exact hfe
    | some p =>
      rw [solveFuel_succ f bo p hfe] at h ⊢
      exact solveDigits_complete_of_true (solveFuel f) ih p digits bo h

/-! ### Fuel irrelevance: the recursion is well-founded on `countEmpty` -/

theorem find_empty_eq_none_of_countEmpty_eq_zero (bo : Grid)
    (h : countEmpty bo = 0) : find_empty bo = none := by
  rw [find_empty_eq_none_iff]
  intro p hp0
  have hmem : p ∈ allCells.filter fun q => bo q == 0 := by
    rw [List.mem_filter]
    exact ⟨mem_allCells p, by simp [hp0]⟩
  unfold countEmpty at h
  rw [List.length_eq_zero] at h
  rw [h] at hmem
  cases hmem

theorem solveFuel_fuel_irrel (f : Nat) :
    ∀ (f' : Nat) (bo : Grid), countEmpty bo ≤ f → f ≤ f' →
      solveFuel f' bo = solveFuel f bo := by
  induction f with
  | zero =>
    intro f' bo hc _
    have hfe : find_empty bo = none :=
      find_empty_eq_none_of_countEmpty_eq_zero bo (Nat.le_zero.mp hc)
    rw [solveFuel_none f' bo hfe, solveFuel_none 0 bo hfe]
  | succ f ih =>
    intro f' bo hc hle
    cases hfe : find_empty bo with
    | none => rw [solveFuel_none f' bo hfe, solveFuel_none (f + 1) bo hfe]
    | some p =>
      obtain ⟨f2, rfl⟩ : ∃ f2, f' = f2 + 1 := by
        cases f' with
        | zero => omega
        | succ n => exact ⟨n, rfl⟩
      rw [solveFuel_succ f2 bo p hfe, solveFuel_succ f bo p hfe]
      have hbo : bo p = 0 := find_empty_some bo p hfe
      have key : ∀ l : List Nat, (∀ i ∈ l, i ≠ 0) →
          solveDigits (solveFuel f2) p bo l = solveDigits (solveFuel f) p bo l := by
        intro l
        induction l with
        | nil => intro _; rfl
        | cons i rest ihl =>
          intro hdig
          rw [solveDigits_cons, solveDigits_cons]
          by_cases hv : valid bo i p = true
          · rw [if_pos hv, if_pos hv]
            have hcount : countEmpty (setCell bo p i) ≤ f := by
              have := countEmpty_setCell bo p i hbo (hdig i (List.mem_cons_self i rest))
              omega
            have hrec : solveFuel f2 (setCell bo p i) = solveFuel f (setCell bo p i) :=
              ih f2 (setCell bo p i) hcount (by omega)
            rw [hrec]
            by_cases hok : (solveFuel f (setCell bo p i)).1 = true
            · rw [if_pos hok, if_pos hok]
            · rw [if_neg hok, if_neg hok]
              have hok' : (solveFuel f (setCell bo p i)).1 = false := by
                simp only [Bool.not_eq_true] at hok
                exact hok
              have hreset : setCell (solveFuel f (setCell bo p i)).2 p 0 = bo := by
                rw [solveFuel_restore f (setCell bo p i) hok', setCell_setCell]
                exact setCell_eq_self bo p 0 hbo
              rw [hreset]
              exact ihl (fun j hj => hdig j (List.mem_cons_of_mem i hj))
          · rw [if_neg hv, if_neg hv]
            exact ihl (fun j hj => hdig j (List.mem_cons_of_mem i hj))
      exact key digits (by decide)

/-- Any fuel at least the number of empty cells computes `solve`: the Python
recursion, whose depth is exactly the number of empty cells filled so far,
is well-founded on `countEmpty` and `solve` (fuel 81) computes its value. -/
theorem solveFuel_eq_solve (bo : Grid) (f : Nat) (h : countEmpty bo ≤ f) :
    solveFuel f bo = solve bo := by
  unfold solve
  rcases Nat.le_total f 81 with hf | hf
  · exact (solveFuel_fuel_irrel f 81 bo h hf).symm
  · exact solveFuel_fuel_irrel 81 f bo (countEmpty_le bo) hf

/-! ### Soundness: a successful search yields a constraint-satisfying grid -/

theorem conflictFree_setCell (g : Grid) (p : Pos) (d : Nat)
    (hcf : conflictFree g) (_hp : g p = 0) (hv : valid g d p = true)
    (_hd : d ≠ 0) : conflictFree (setCell g p d) := by
  have hval := (valid_eq_true_iff g d p).mp hv
  intro q r hne hunit hq0
  by_cases hqp : q = p
  · have hrp : r ≠ p := by
      intro hc
      exact hne (by rw [hqp, hc])
    rw [hqp] at hq0 hunit ⊢
    rw [setCell_self] at hq0 ⊢
    rw [setCell_ne g p r d hrp]
    exact fun hc => hval r hrp hunit hc.symm
  · rw [setCell_ne g p q d hqp] at hq0 ⊢
    by_cases hrp : r = p
    · rw [hrp, setCell_self]
      have hunit2 : sameUnit p q := by
        rw [← hrp]
        exact sameUnit_symm q r hunit
      exact fun hc => hval q hqp hunit2 hc
    · rw [setCell_ne g p r d hrp]
      exact hcf q r hne hunit hq0

theorem solveDigits_sound (rec : Grid → Bool × Grid)
    (hrecR : ∀ g, (rec g).1 = false → (rec g).2 = g)
    (hrecS : ∀ g, (∀ q : Pos, g q ≤ 9) → conflictFree g → (rec g).1 = true →
      (∀ q : Pos, (rec g).2 q ≤ 9) ∧ conflictFree (rec g).2) (p : Pos) :
    ∀ (l : List Nat) (bo : Grid), (∀ i ∈ l, 1 ≤ i ∧ i ≤ 9) → bo p = 0 →
      (∀ q : Pos, bo q ≤ 9) → conflictFree bo →
      (solveDigits rec p bo l).1 = true →
      (∀ q : Pos, (solveDigits rec p bo l).2 q ≤ 9) ∧
        conflictFree (solveDigits rec p bo l).2 := by
  intro l
  induction l with
  | nil => intro bo _ _ _ _ h; exact Bool.noConfusion h
  | cons i rest ih =>
    intro bo hl hbo hb hcf h
    have hi : 1 ≤ i ∧ i ≤ 9 := hl i (List.mem_cons_self i rest)
    have hrest : ∀ j ∈ rest, 1 ≤ j ∧ j ≤ 9 :=
      fun j hj => hl j (List.mem_cons_of_mem i hj)
    rw [solveDigits_cons] at h ⊢
    by_cases hv : valid bo i p = true
    · rw [if_pos hv] at h ⊢
      by_cases hok : (rec (setCell bo p i)).1 = true
      · rw [if_pos hok] at h ⊢
        have hb1 : ∀ q : Pos, setCell bo p i q ≤ 9 := by
          intro q
          by_cases hq : q = p
          · rw [hq, setCell_self]; exact hi.2
          · rw [setCell_ne bo p q i hq]; exact hb q
        have hcf1 : conflictFree (setCell bo p i) :=
          conflictFree_setCell bo p i hcf hbo hv (by omega)
        exact hrecS (setCell bo p i) hb1 hcf1 hok
      · rw [if_neg hok] at h ⊢
        have hok' : (rec (setCell bo p i)).1 = false := by
          simp only [Bool.not_eq_true] at hok
          exact hok
        have hreset : setCell (rec (setCell bo p i)).2 p 0 = bo := by
          rw [hrecR (setCell bo p i) hok', setCell_setCell]
          exact setCell_eq_self bo p 0 hbo
        rw [hreset] at h ⊢
        exact ih bo hrest hbo hb hcf h
    · rw [if_neg hv] at h ⊢
      exact ih bo hrest hbo hb hcf h

theorem solveFuel_sound (fuel : Nat) :
    ∀ bo : Grid, (∀ q : Pos, bo q ≤ 9) → conflictFree bo →
      (solveFuel fuel bo).1 = true →
      (∀ q : Pos, (solveFuel fuel bo).2 q ≤ 9) ∧
        conflictFree (solveFuel fuel bo).2 := by
  induction fuel with
  | zero =>
    intro bo hb hcf h
    cases hfe : find_empty bo with
    | none => rw [solveFuel_none 0 bo hfe]; exact ⟨hb, hcf⟩
    | some p =>
      rw [solveFuel_zero bo p hfe] at h
      exact Bool.noConfusion h
  | succ f ih =>
    intro bo hb hcf h
    cases hfe : find_empty bo with
    | none => rw [solveFuel_none (f + 1) bo hfe]; exact ⟨hb, hcf⟩
    | some p =>
      rw [solveFuel_succ f bo p hfe] at h ⊢
      exact solveDigits_sound (solveFuel f) (solveFuel_restore f) ih p digits bo
        (by decide) (find_empty_some bo p hfe) hb hcf h

/-- Soundness of `Grid.solve`: from a grid whose cells are digits at most 9
with no unit conflict, a successful solve returns a full Sudoku solution of
the input grid. -/
theorem solve_sound (bo : Grid) (hb : ∀ q : Pos, bo q ≤ 9)
    (hcf : conflictFree bo) (h : (solve bo).1 = true) :
    isSolutionOf (solve bo).2 bo := by
  have hframe : extendsGrid (solve bo).2 bo :=
    fun q hq => solveFuel_frame 81 bo q hq
  have hnone : find_empty (solve bo).2 = none :=
    solveFuel_complete_of_true 81 bo h
  have hfull : ∀ q : Pos, (solve bo).2 q ≠ 0 :=
    (find_empty_eq_none_iff (solve bo).2).mp hnone
  have hsound := solveFuel_sound 81 bo hb hcf h
  exact ⟨hframe, fun q => ⟨Nat.one_le_iff_ne_zero.mpr (hfull q), hsound.1 q⟩,
    hsound.2⟩

/-! ### Completeness: if a solution exists, the search succeeds -/

theorem mem_digits (d : Nat) (h1 : 1 ≤ d) (h9 : d ≤ 9) : d ∈ digits := by
  unfold digits
  simp only [List.mem_cons, List.not_mem_nil, or_false]
  omega

theorem valid_of_solution (s bo : Grid) (p : Pos)
    (hsol : isSolutionOf s bo) (_hp : bo p = 0) :
    valid bo (s p) p = true := by
  obtain ⟨hext, hrange, hcf⟩ := hsol
  rw [valid_eq_true_iff]
  intro q hqne hunit heq
  have hq0 : bo q ≠ 0 := by
    have := (hrange p).1
    omega
  have hsq : s q = s p := by rw [hext q hq0, heq]
  have hne : p ≠ q := fun hc => hqne hc.symm
  have hsp0 : s p ≠ 0 := by
    have := (hrange p).1
    omega
  exact hcf p q hne hunit hsp0 hsq.symm

theorem isSolutionOf_setCell (s bo : Grid) (p : Pos)
    (hsol : isSolutionOf s bo) (_hp : bo p = 0) :
    isSolutionOf s (setCell bo p (s p)) := by
  obtain ⟨hext, hrange, hcf⟩ := hsol
  refine ⟨?_, hrange, hcf⟩
  intro q hq
  by_cases hqp : q = p
  · rw [hqp, setCell_self]
  · rw [setCell_ne bo p q (s p) hqp] at hq ⊢
    exact hext q hq

theorem solveFuel_complete (s : Grid) (fuel : Nat) :
    ∀ bo : Grid, countEmpty bo ≤ fuel → isSolutionOf s bo →
      (solveFuel fuel bo).1 = true := by
  induction fuel with
  | zero =>
    intro bo hc _
    have hfe : find_empty bo = none :=
      find_empty_eq_none_of_countEmpty_eq_zero bo (Nat.le_zero.mp hc)
    rw [solveFuel_none 0 bo hfe]
  | succ f ih =>
    intro bo hc hsol
    cases hfe : find_empty bo with
    | none => rw [solveFuel_none (f + 1) bo hfe]
    | some p =>
      rw [solveFuel_succ f bo p hfe]
      have hbo : bo p = 0 := find_empty_some bo p hfe
      have hsp : 1 ≤ s p ∧ s p ≤ 9 := hsol.2.1 p
      have key : ∀ l : List Nat, (∀ i ∈ l, i ≠ 0) → s p ∈ l →
          (solveDigits (solveFuel f) p bo l).1 = true := by
        intro l
        induction l with
        | nil => intro _ hmem; cases hmem
        | cons i rest ihl =>
          intro hdig hmem
          rw [solveDigits_cons]
          by_cases hv : valid bo i p = true
          · rw [if_pos hv]
            by_cases hok : (solveFuel f (setCell bo p i)).1 = true
            · rw [if_pos hok]
            · rw [if_neg hok]
              have hisp : i ≠ s p := by
                intro hc2
                apply hok
                rw [hc2]
                have hcount : countEmpty (setCell bo p (s p)) ≤ f := by
                  have := countEmpty_setCell bo p (s p) hbo (by omega)
                  omega
                exact ih (setCell bo p (s p)) hcount
                  (isSolutionOf_setCell s bo p hsol hbo)
              have hmem' : s p ∈ rest := by
                rcases List.mem_cons.mp hmem with h | h
                · exact absurd h.symm hisp
                · exact h
              have hok' : (solveFuel f (setCell bo p i)).1 = false := by
                simp only [Bool.not_eq_true] at hok
                exact hok
              have hreset : setCell (solveFuel f (setCell bo p i)).2 p 0 = bo := by
                rw [solveFuel_restore f (setCell bo p i) hok', setCell_setCell]
                exact setCell_eq_self bo p 0 hbo
              rw [hreset]
              exact ihl (fun j hj => hdig j (List.mem_cons_of_mem i hj)) hmem'
          · rw [if_neg hv]
            have hisp : i ≠ s p := by
              intro hc2
              apply hv
              rw [hc2]
              exact valid_of_solution s bo p hsol hbo
            have hmem' : s p ∈ rest := by
              rcases List.mem_cons.mp hmem with h | h
              · exact absurd h.symm hisp
              · exact h
            exact ihl (fun j hj => hdig j (List.mem_cons_of_mem i hj)) hmem'
      exact key digits (by decide) (mem_digits (s p) hsp.1 hsp.2)

/-- Completeness of `Grid.solve`: any grid admitting a Sudoku solution is
reported solved. -/
theorem solve_complete (s bo : Grid) (hsol : isSolutionOf s bo) :
    (solve bo).1 = true :=
  solveFuel_complete s 81 bo (countEmpty_le bo) hsol

/-! ### Uniqueness: a uniquely solvable grid solves to exactly its solution -/

theorem conflictFree_of_solution (s bo : Grid) (hsol : isSolutionOf s bo) :
    conflictFree bo := by
  obtain ⟨hext, hrange, hcf⟩ := hsol
  intro p q hne hunit hp0 hc
  have hq0 : bo q ≠ 0 := by rw [← hc]; exact hp0
  have hsp : s p = bo p := hext p hp0
  have hsq : s q = bo q := hext q hq0
  exact hcf p q hne hunit (by rw [hsp]; exact hp0) (by rw [hsp, hsq, hc])

theorem bounds_of_solution (s bo : Grid) (hsol : isSolutionOf s bo) :
    ∀ q : Pos, bo q ≤ 9 := by
  intro q
  by_cases hq : bo q = 0
  · omega
  · rw [← hsol.1 q hq]
    exact (hsol.2.1 q).2

theorem solve_of_complete (g : Grid) (h : ∀ p : Pos, g p ≠ 0) :
    solve g = (true, g) := by
  unfold solve
  exact solveFuel_none 81 g ((find_empty_eq_none_iff g).mpr h)

theorem solve_unique (bo s : Grid) (hs : isSolutionOf s bo)
    (hu : ∀ t : Grid, isSolutionOf t bo → t = s) :
    solve bo = (true, s) ∧ solve s = (true, s) := by
  have hb : ∀ q : Pos, bo q ≤ 9 := bounds_of_solution s bo hs
  have hcf : conflictFree bo := conflictFree_of_solution s bo hs
  have h1 : (solve bo).1 = true := solve_complete s bo hs
  have hsol2 : isSolutionOf (solve bo).2 bo := solve_sound bo hb hcf h1
  have h2 : (solve bo).2 = s := hu (solve bo).2 hsol2
  refine ⟨Prod.ext h1 h2, ?_⟩
  have hfull : ∀ p : Pos, s p ≠ 0 := by
    intro p
    have := (hs.2.1 p).1
    omega
  exact solve_of_complete s hfull

theorem place_none (st : GameState) (val : Nat)
    (h : (st.cubes st.selected).value ≠ 0) : place st val = (none, st) := by
  unfold place
  rw [if_neg h]

theorem place_commit (st : GameState) (val : Nat) (st' : GameState)
    (h : place st val = (some true, st')) :
    (st.cubes st.selected).value = 0 ∧
    st'.cubes = cubeSet st.cubes st.selected val ∧
    st'.model = (solve (update_model (cubeSet st.cubes st.selected val))).2 ∧
    (solve (update_model (cubeSet st.cubes st.selected val))).1 = true ∧
    st'.selected = st.selected := by
  unfold place at h
  by_cases h0 : (st.cubes st.selected).value = 0
  · rw [if_pos h0] at h
    by_cases hv : valid (update_model (cubeSet st.cubes st.selected val)) val
        st.selected = true
    · rw [if_pos hv] at h
      rcases hs : solve (update_model (cubeSet st.cubes st.selected val)) with ⟨ok, m2⟩
      rw [hs] at h
      cases ok
      · exact absurd (congrArg Prod.fst h) (by simp)
      · have hst : st' = { st with cubes := cubeSet st.cubes st.selected val, model := m2 } := by
          have := congrArg Prod.snd h
          exact this.symm
        refine ⟨h0, ?_, ?_, ?_, ?_⟩
        · rw [hst]
        · rw [hst]
        · rfl
        · rw [hst]
    · rw [if_neg hv] at h
      exact absurd (congrArg Prod.fst h) (by simp)
  · rw [if_neg h0] at h
    exact absurd (congrArg Prod.fst h) (by simp)

theorem place_reject (st : GameState) (val : Nat) (st' : GameState)
    (h : place st val = (some false, st')) :
    (st.cubes st.selected).value = 0 ∧
    st'.cubes = cubeSetTemp (cubeSet (cubeSet st.cubes st.selected val)
      st.selected 0) st.selected 0 ∧
    st'.model = update_model st'.cubes ∧
    st'.selected = st.selected := by
  unfold place at h
  by_cases h0 : (st.cubes st.selected).value = 0
  · rw [if_pos h0] at h
    by_cases hv : valid (update_model (cubeSet st.cubes st.selected val)) val
        st.selected = true
    · rw [if_pos hv] at h
      rcases hs : solve (update_model (cubeSet st.cubes st.selected val)) with ⟨ok, m2⟩
      rw [hs] at h
      cases ok
      · injection h with h1 h2
        subst h2
        exact ⟨h0, rfl, rfl, rfl⟩
      · exact absurd (congrArg Prod.fst h) (by simp)
    · rw [if_neg hv] at h
      injection h with h1 h2
      subst h2
      exact ⟨h0, rfl, rfl, rfl⟩
  · rw [if_neg h0] at h
    exact absurd (congrArg Prod.fst h) (by simp)

/-! ### Cube field lemmas -/

theorem cubeSet_self (cs : Cubes) (p : Pos) (v : Nat) :
    cubeSet cs p v p = { cs p with value := v } := by
  simp [cubeSet]

theorem cubeSet_ne (cs : Cubes) (p q : Pos) (v : Nat) (h : q ≠ p) :
    cubeSet cs p v q = cs q := by
  simp [cubeSet, h]

theorem cubeSetTemp_self (cs : Cubes) (p : Pos) (v : Nat) :
    cubeSetTemp cs p v p = { cs p with temp := v } := by
  simp [cubeSetTemp]

theorem cubeSetTemp_ne (cs : Cubes) (p q : Pos) (v : Nat) (h : q ≠ p) :
    cubeSetTemp cs p v q = cs q := by
  simp [cubeSetTemp, h]


/-! ### Claim theorems -/

/-- C1: for every grid, digit and position, the constraint check `valid`
returns `false` if and only if the digit already occurs at some cell other
than the position itself in the position's row, column, or containing 3x3
box; a cell equal to the position is excluded from the comparison. -/
theorem valid_false_iff_duplicate_elsewhere (bo : Grid) (num : Nat) (pos : Pos) :
    valid bo num pos = false ↔
      ∃ q : Pos, q ≠ pos ∧ sameUnit pos q ∧ bo q = num :=
  valid_eq_false_iff bo num pos

/-- C2: whenever the silent backtracking solver returns Exhausted (`false`),
the grid after the call is identical cell-for-cell to the grid before the
call: every cell written during the attempt has been restored. -/
theorem solve_exhausted_restores_grid (bo : Grid) (h : (solve bo).1 = false) :
    (solve bo).2 = bo :=
  solve_restore bo h

/-- Witness for C2 at a concrete unsolvable grid: `conflictBlockedGrid` is
reported Exhausted and comes back unchanged. -/
theorem solve_exhausted_restores_grid_witness :
    (solve conflictBlockedGrid).1 = false ∧
      (solve conflictBlockedGrid).2 = conflictBlockedGrid :=
  ⟨by decide, solve_exhausted_restores_grid conflictBlockedGrid (by decide)⟩

/-- C4 counterexample: `conflictSolvableGrid` has two givens holding 2 in
row 0 (so its givens violate the Sudoku constraints), yet the silent solver
reports Solved, not Exhausted: `valid` never re-checks given cells against
each other, so conflicting givens do not force failure. -/
theorem conflicting_givens_can_still_solve :
    conflictSolvableGrid ((0 : Fin 9), (0 : Fin 9)) = 2 ∧
    conflictSolvableGrid ((0 : Fin 9), (1 : Fin 9)) = 2 ∧
    (((0 : Fin 9), (0 : Fin 9)) : Pos) ≠ ((0 : Fin 9), (1 : Fin 9)) ∧
    sameUnit ((0 : Fin 9), (0 : Fin 9)) ((0 : Fin 9), (1 : Fin 9)) ∧
    ¬ conflictFree conflictSolvableGrid ∧
    (solve conflictSolvableGrid).1 = true := by
  refine ⟨by decide, by decide, by decide, by decide, by decide, by decide⟩

/-- C4 (amended): a grid with conflicting givens is not guaranteed to be
reported Exhausted, since given cells are never re-validated against each
other; what holds is that whenever the solver does report Exhausted, every
cell it mutated is restored, and there are grids with conflicting givens
(such as `conflictBlockedGrid`) on which it returns Exhausted with the grid
unchanged. -/
theorem solve_conflicting_givens_amended :
    (∀ bo : Grid, (solve bo).1 = false → (solve bo).2 = bo) ∧
    (¬ conflictFree conflictBlockedGrid ∧
      solve conflictBlockedGrid = (false, conflictBlockedGrid)) :=
  ⟨fun bo h => solve_restore bo h, by decide, by decide⟩

/-- Witness for the amended C4: the general restoration clause applied at the
concrete Exhausted grid. -/
theorem solve_conflicting_givens_amended_witness :
    (solve conflictBlockedGrid).1 = false ∧
      (solve conflictBlockedGrid).2 = conflictBlockedGrid :=
  ⟨by decide,
   solve_conflicting_givens_amended.1 conflictBlockedGrid (by decide)⟩

/-- C9: a silent solve run terminates with one of the two outcomes, and the
recursion is well-founded on the number of empty cells: fuel equal to
`countEmpty bo` already computes the full search result `solve bo`. -/
theorem solve_terminates_on_countEmpty (bo : Grid) :
    solveFuel (countEmpty bo) bo = solve bo ∧
      ((solve bo).1 = true ∨ (solve bo).1 = false) := by
  refine ⟨solveFuel_eq_solve bo (countEmpty bo) (Nat.le_refl _), ?_⟩
  cases (solve bo).1
  · exact Or.inr rfl
  · exact Or.inl rfl

/-- C10: the solver never changes a cell that was nonzero when it was
called, whatever the outcome: givens and previously committed digits are
preserved. -/
theorem solve_preserves_nonzero_cells (bo : Grid) (q : Pos) (h : bo q ≠ 0) :
    (solve bo).2 q = bo q :=
  solveFuel_frame 81 bo q h

/-- Witness for C10: the conflicting given at `(0,0)` of
`conflictSolvableGrid` is untouched by the successful solve. -/
theorem solve_preserves_nonzero_cells_witness :
    conflictSolvableGrid ((0 : Fin 9), (0 : Fin 9)) ≠ 0 ∧
      (solve conflictSolvableGrid).2 ((0 : Fin 9), (0 : Fin 9)) =
        conflictSolvableGrid ((0 : Fin 9), (0 : Fin 9)) :=
  ⟨by decide,
   solve_preserves_nonzero_cells conflictSolvableGrid
     ((0 : Fin 9), (0 : Fin 9)) (by decide)⟩

/-- C3: for every grid with exactly one Sudoku completion, the silent solver
returns Solved and the grid afterwards is exactly that unique solution, and
re-solving the already-solved grid returns Solved again without mutating any
cell, so the result is independent of the call count. -/
theorem solve_unique_solution_idempotent (bo s : Grid)
    (hs : isSolutionOf s bo) (hu : ∀ t : Grid, isSolutionOf t bo → t = s) :
    solve bo = (true, s) ∧ solve s = (true, s) :=
  solve_unique bo s hs hu

/-- Witness for C3: `uniqueTestGrid` (one empty cell, forced to be 8) has
`Sgrid` as its unique solution; the solver fills exactly that cell and a
second solve leaves the solved grid untouched. -/
theorem solve_unique_solution_idempotent_witness :
    isSolutionOf Sgrid uniqueTestGrid ∧
      solve uniqueTestGrid = (true, Sgrid) ∧ solve Sgrid = (true, Sgrid) := by
  have hs : isSolutionOf Sgrid uniqueTestGrid := by decide
  have hagr : ∀ p : Pos, p ≠ ((8 : Fin 9), (8 : Fin 9)) →
      uniqueTestGrid p ≠ 0 ∧ uniqueTestGrid p = Sgrid p := by decide
  have hu : ∀ t : Grid, isSolutionOf t uniqueTestGrid → t = Sgrid := by
    rintro t ⟨hext, hrange, hcf⟩
    funext p
    by_cases hp : p = ((8 : Fin 9), (8 : Fin 9))
    · rw [hp]
      have hS88 : Sgrid ((8 : Fin 9), (8 : Fin 9)) = 8 := by decide
      rw [hS88]
      have hrow : ∀ j : Fin 9, ((8 : Fin 9), j) ≠ ((8 : Fin 9), (8 : Fin 9)) →
          t ((8 : Fin 9), j) = uniqueTestGrid ((8 : Fin 9), j) :=
        fun j hj => hext ((8 : Fin 9), j) (hagr ((8 : Fin 9), j) hj).1
    -- the eight filled cells of row 8 pin the last cell to 8
      have hne : ∀ j : Fin 9, ((8 : Fin 9), (8 : Fin 9)) ≠ (((8 : Fin 9), j) : Pos) →
          t ((8 : Fin 9), (8 : Fin 9)) ≠ t ((8 : Fin 9), j) := by
        intro j hj
        refine hcf ((8 : Fin 9), (8 : Fin 9)) ((8 : Fin 9), j) hj (Or.inl rfl) ?_
        have h1 := (hrange ((8 : Fin 9), (8 : Fin 9))).1
        omega
      have h0 := hne 0 (by decide)
      have h1 := hne 1 (by decide)
      have h2 := hne 2 (by decide)
      have h3 := hne 3 (by decide)
      have h4 := hne 4 (by decide)
      have h5 := hne 5 (by decide)
      have h6 := hne 6 (by decide)
      have h7 := hne 7 (by decide)
      rw [hrow 0 (by decide)] at h0
      rw [hrow 1 (by decide)] at h1
      rw [hrow 2 (by decide)] at h2
      rw [hrow 3 (by decide)] at h3
      rw [hrow 4 (by decide)] at h4
      rw [hrow 5 (by decide)] at h5
      rw [hrow 6 (by decide)] at h6
      rw [hrow 7 (by decide)] at h7
      have hu0 : uniqueTestGrid ((8 : Fin 9), (0 : Fin 9)) = 9 := by decide
      have hu1 : uniqueTestGrid ((8 : Fin 9), (1 : Fin 9)) = 1 := by decide
      have hu2 : uniqueTestGrid ((8 : Fin 9), (2 : Fin 9)) = 2 := by decide
      have hu3 : uniqueTestGrid ((8 : Fin 9), (3 : Fin 9)) = 3 := by decide
      have hu4 : uniqueTestGrid ((8 : Fin 9), (4 : Fin 9)) = 4 := by decide
      have hu5 : uniqueTestGrid ((8 : Fin 9), (5 : Fin 9)) = 5 := by decide
      have hu6 : uniqueTestGrid ((8 : Fin 9), (6 : Fin 9)) = 6 := by decide
      have hu7 : uniqueTestGrid ((8 : Fin 9), (7 : Fin 9)) = 7 := by decide
      rw [hu0] at h0
      rw [hu1] at h1
      rw [hu2] at h2
      rw [hu3] at h3
      rw [hu4] at h4
      rw [hu5] at h5
      rw [hu6] at h6
      rw [hu7] at h7
      have hb := hrange ((8 : Fin 9), (8 : Fin 9))
      omega
    · rw [hext p (hagr p hp).1, (hagr p hp).2]
  have := solve_unique_solution_idempotent uniqueTestGrid Sgrid hs hu
  exact ⟨hs, this.1, this.2⟩

/-- Frame property phrased on `solve` itself. -/
theorem solve_frame (bo : Grid) (q : Pos) (h : bo q ≠ 0) :
    (solve bo).2 q = bo q :=
  solveFuel_frame 81 bo q h

/-- A successful `solve` leaves no empty cell. -/
theorem solve_full_of_true (bo : Grid) (h : (solve bo).1 = true) :
    ∀ p : Pos, (solve bo).2 p ≠ 0 :=
  (find_empty_eq_none_iff (solve bo).2).mp (solveFuel_complete_of_true 81 bo h)

/-- C5: when `Grid.place` commits (returns `True`), the solver grid
afterwards holds the entire solved puzzle found by the speculative probe:
it is exactly the probe's final grid, every cell is filled, the selected
cell holds the placed digit, and every given keeps its value. -/
theorem place_commit_reveals_full_solution (st : GameState) (val : Nat)
    (st' : GameState) (hv : 1 ≤ val ∧ val ≤ 9)
    (h : place st val = (some true, st')) :
    st'.model = (solve (update_model (cubeSet st.cubes st.selected val))).2 ∧
    (∀ p : Pos, st'.model p ≠ 0) ∧
    st'.model st.selected = val ∧
    (∀ p : Pos, (st.cubes p).value ≠ 0 → st'.model p = (st.cubes p).value) := by
  obtain ⟨h0, hcubes, hmodel, htrue, hsel⟩ := place_commit st val st' h
  have hM1sel : update_model (cubeSet st.cubes st.selected val) st.selected = val := by
    unfold update_model
    rw [cubeSet_self]
  refine ⟨hmodel, ?_, ?_, ?_⟩
  · intro p
    rw [hmodel]
    exact solve_full_of_true _ htrue p
  · rw [hmodel, solve_frame _ st.selected (by rw [hM1sel]; omega), hM1sel]
  · intro p hp
    by_cases hps : p = st.selected
    · rw [hps] at hp
      exact absurd h0 hp
    · have hMp : update_model (cubeSet st.cubes st.selected val) p =
          (st.cubes p).value := by
        unfold update_model
        rw [cubeSet_ne st.cubes st.selected p val hps]
      rw [hmodel, solve_frame _ p (by rw [hMp]; exact hp), hMp]

/-- Witness for C5 at the concrete near-complete board: committing 8 at
`(8,8)` leaves the solver grid fully filled with the placed digit at the
selected cell. -/
theorem place_commit_reveals_full_solution_witness :
    (1 ≤ 8 ∧ (8 : Nat) ≤ 9) ∧
    (∀ p : Pos, (place exSt 8).2.model p ≠ 0) ∧
    (place exSt 8).2.model exSt.selected = 8 := by
  have h : place exSt 8 = (some true, (place exSt 8).2) :=
    Prod.ext (by decide) rfl
  have hc := place_commit_reveals_full_solution exSt 8 _ (by decide) h
  exact ⟨by decide, hc.2.1, hc.2.2.1⟩

/-- C6: when `Grid.place` rejects (returns `False`), the targeted cell is
reverted to empty, its scratch mark is cleared to 0, and every other cube of
the board is unchanged. -/
theorem place_reject_reverts_cell_and_scratch (st : GameState) (val : Nat)
    (st' : GameState) (h : place st val = (some false, st')) :
    (st'.cubes st.selected).value = 0 ∧
    (st'.cubes st.selected).temp = 0 ∧
    (∀ q : Pos, q ≠ st.selected → st'.cubes q = st.cubes q) := by
  obtain ⟨h0, hcubes, hmodel, hsel⟩ := place_reject st val st' h
  refine ⟨?_, ?_, ?_⟩
  · rw [hcubes, cubeSetTemp_self]
    show (cubeSet (cubeSet st.cubes st.selected val) st.selected 0
      st.selected).value = 0
    rw [cubeSet_self]
  · rw [hcubes, cubeSetTemp_self]
  · intro q hq
    rw [hcubes, cubeSetTemp_ne _ _ _ _ hq, cubeSet_ne _ _ _ _ hq,
      cubeSet_ne _ _ _ _ hq]

/-- Witness for C6: placing the locally conflicting digit 7 at the empty
`(8,8)` is rejected and the cell reads back empty with cleared scratch. -/
theorem place_reject_reverts_cell_and_scratch_witness :
    (place exSt 7).1 = some false ∧
    ((place exSt 7).2.cubes exSt.selected).value = 0 ∧
    ((place exSt 7).2.cubes exSt.selected).temp = 0 ∧
    (∀ q : Pos, q ≠ exSt.selected → (place exSt 7).2.cubes q = exSt.cubes q) := by
  have h : place exSt 7 = (some false, (place exSt 7).2) :=
    Prod.ext (by decide) rfl
  have hc := place_reject_reverts_cell_and_scratch exSt 7 _ h
  exact ⟨by decide, hc.1, hc.2.1, hc.2.2⟩

/-- C7: calling `Grid.place` while the selected cell already holds a nonzero
value does nothing: the state is returned unchanged and the reported outcome
is neither Committed (`True`) nor Rejected (`False`) but `None`. -/
theorem place_on_filled_cell_is_noop (st : GameState) (val : Nat)
    (h : (st.cubes st.selected).value ≠ 0) :
    place st val = (none, st) :=
  place_none st val h

/-- Witness for C7 on a fully solved board with a filled cell selected. -/
theorem place_on_filled_cell_is_noop_witness :
    place exStFull 5 = (none, exStFull) :=
  place_on_filled_cell_is_noop exStFull 5 (by decide)

/-- C8 counterexample: on a successful commit the scratch mark is NOT
cleared: committing 8 at the selected empty cell `(8,8)`, whose scratch mark
is 7, reports Committed yet the scratch mark still reads 7, not 0 — the
success path of `Grid.place` never calls `set_temp(0)`. -/
theorem place_commit_keeps_scratch_counterexample :
    (exSt.cubes exSt.selected).value = 0 ∧
    (exSt.cubes exSt.selected).temp = 7 ∧
    (place exSt 8).1 = some true ∧
    ((place exSt 8).2.cubes exSt.selected).temp = 7 :=
  ⟨by decide, by decide, by decide, by decide⟩

/-- C8 (amended): when `Grid.place` commits, the placed cell's scratch mark
is left exactly as it was before the call (it is cleared only on the
rejection path); it does not in general read 0 afterwards. -/
theorem place_commit_scratch_unchanged (st : GameState) (val : Nat)
    (st' : GameState) (h : place st val = (some true, st')) :
    (st'.cubes st.selected).temp = (st.cubes st.selected).temp := by
  obtain ⟨h0, hcubes, hmodel, htrue, hsel⟩ := place_commit st val st' h
  rw [hcubes, cubeSet_self]

/-- Witness for the amended C8 at the concrete commit. -/
theorem place_commit_scratch_unchanged_witness :
    ((place exSt 8).2.cubes exSt.selected).temp =
      (exSt.cubes exSt.selected).temp := by
  have h : place exSt 8 = (some true, (place exSt 8).2) :=
    Prod.ext (by decide) rfl
  exact place_commit_scratch_unchanged exSt 8 _ h
